import Mathlib

/-!
Verification of the rate-aggregation and change-propagation pipeline.

The development shallowly embeds the program's components:
rates are modelled as exact rationals, machine time as a natural-number
parameter `now`, and the relational store as a list of records looked up
by code.  External effects (HTTP fetch outcomes, JSON decoding of upstream
bodies, Python's builtin `float`/`int` parsers, WebSocket send success,
NATS publish success) enter as explicit parameters, so that every embedded
function is total and executable.
-/

/-! ## Association lists with Python-dict semantics
`alSet` replaces the first binding in place when the key is present and
appends otherwise, matching insertion-order-preserving dict assignment;
`alUpdate m1 m2` is `m1.update(m2)`. -/

def alGet? {α : Type} : List (String × α) → String → Option α
  | [], _ => none
  | p :: rest, k => if p.1 = k then some p.2 else alGet? rest k

def alSet {α : Type} : List (String × α) → String → α → List (String × α)
  | [], k, v => [(k, v)]
  | p :: rest, k, v => if p.1 = k then (k, v) :: rest else p :: alSet rest k v

def alUpdate {α : Type} (m1 m2 : List (String × α)) : List (String × α) :=
  m2.foldl (fun acc p => alSet acc p.1 p.2) m1

/-! ## Data model (app/models/item.py) -/

/-- One entry of an adapter-produced rate map: the value attached to a code
in the dicts returned by `fetch_cbr` / `fetch_binance` and their sync
variants (`rate`, `nominal`, `source` keys, always all present). -/
structure RateEntry where
  rate : ℚ
  nominal : Int
  source : String
deriving DecidableEq, Repr

/-- The `info` dict as consumed by `process_and_store`, whose code reads
`info["rate"]` (KeyError when absent, caught per code) and
`info.get("nominal", _)` / `info.get("source", _)`. -/
structure ItemInfo where
  rate? : Option ℚ
  nominal? : Option Int
  source? : Option String
deriving DecidableEq, Repr

def RateEntry.toInfo (e : RateEntry) : ItemInfo :=
  ⟨some e.rate, some e.nominal, some e.source⟩

/-- A persisted row of the `items` table (ItemModel). -/
structure ItemRecord where
  id : Nat
  code : String
  title : String
  rate : ℚ
  nominal : Int
  source : String
  is_crypto : Bool
  updated_at : Nat
deriving DecidableEq, Repr

abbrev Store := List ItemRecord

/-- `select(ItemModel).where(ItemModel.code == code)` with
`scalar_one_or_none()`: the first (under the unique constraint, only)
record with the given code. -/
def lookupCode : Store → String → Option ItemRecord
  | [], _ => none
  | r :: rest, code => if r.code = code then some r else lookupCode rest code

/-- A fresh autoincrement primary key for a created row. -/
def freshId (store : Store) : Nat :=
  store.foldr (fun r m => max r.id m) 0 + 1

/-- The change-detection tolerance `1e-9` of `process_and_store`. -/
def eps : ℚ := 1 / 1000000000

inductive EventKind
  | created
  | updated
deriving DecidableEq, Repr

/-- The payload broadcast to the registry and published to the bus:
`{"type": kind, "item": {code, rate, nominal, source, is_crypto}}`. -/
structure ChangeEvent where
  kind : EventKind
  code : String
  rate : ℚ
  nominal : Int
  source : String
  is_crypto : Bool
deriving DecidableEq, Repr

structure StepResult where
  store : Store
  events : List ChangeEvent
  writes : Nat
deriving DecidableEq, Repr

/-- The body of `Poller.process_and_store`'s per-code loop
(poller.py lines 145-222, storage effects only; the same compare-and-update
logic appears in `poll_loop`, parser.py lines 205-265): look up the record
by code; if absent create it (title = code, `is_crypto = code in
CRYPTO_CODES`) and emit a `created` event; if present update the row and
emit an `updated` event exactly when `abs(item.rate - info["rate"]) > 1e-9`;
a missing `"rate"` key raises KeyError, caught by the per-code handler. -/
def stepCode (cryptoCodes : List String) (now : Nat) (store : Store)
    (code : String) (info : ItemInfo) : StepResult :=
  match lookupCode store code with
  | none =>
    match info.rate? with
    | none => ⟨store, [], 0⟩
    | some x =>
      let newRec : ItemRecord :=
        { id := freshId store, code := code, title := code, rate := x,
          nominal := info.nominal?.getD 1, source := info.source?.getD "",
          is_crypto := cryptoCodes.contains code, updated_at := now }
      ⟨store ++ [newRec],
       [⟨.created, newRec.code, newRec.rate, newRec.nominal, newRec.source,
         newRec.is_crypto⟩], 1⟩
  | some item =>
    match info.rate? with
    | none => ⟨store, [], 0⟩
    | some x =>
      if eps < |item.rate - x| then
        let item' : ItemRecord :=
          { item with
            rate := x, nominal := info.nominal?.getD item.nominal,
            source := info.source?.getD item.source,
            is_crypto := cryptoCodes.contains code, updated_at := now }
        ⟨store.map (fun r => if r.code = code then item' else r),
         [⟨.updated, item'.code, item'.rate, item'.nominal, item'.source,
           item'.is_crypto⟩], 1⟩
      else ⟨store, [], 0⟩

/-- One pipeline pass of the Store Writer over the merged map
(`for code, info in combined.items()`), accumulating events and writes. -/
def process_and_store (cryptoCodes : List String) (now : Nat) (store : Store) :
    List (String × RateEntry) → StepResult
  | [] => ⟨store, [], 0⟩
  | (c, e) :: rest =>
    let r1 := stepCode cryptoCodes now store c e.toInfo
    let r2 := process_and_store cryptoCodes now r1.store rest
    ⟨r2.store, r1.events ++ r2.events, r1.writes + r2.writes⟩

/-! ## Central-bank adapter (app/services/parser.py, app/tasks/poller.py)
The XML library and Python's builtin `float`/`int` are external: a `Valute`
element is abstracted to the four child texts the parser reads (`none`
standing for a missing node or a `None` text), the whole document to either
a parsed element list or `malformed` (`ElementTree.fromstring` raised), and
the numeric parsers enter as parameters `floatFn` / `intFn`. -/

def isPySpace (c : Char) : Bool :=
  c = ' ' || c = '\t' || c = '\n' || c = '\r' || c = '\x0b' || c = '\x0c'

/-- Python's `str.strip()` (whitespace stripped from both ends), modelled
executably over the character list. -/
def pyStrip (s : String) : String :=
  ⟨((s.data.dropWhile isPySpace).reverse.dropWhile isPySpace).reverse⟩

/-- Python's `s.replace(",", ".")`: the separators are single characters,
so the substring replacement is a character map. -/
def pyReplaceCommaDot (s : String) : String :=
  ⟨s.data.map (fun c => if c = ',' then '.' else c)⟩

structure Valute where
  charCode? : Option String
  value? : Option String
  vunitRate? : Option String
  nominal? : Option String
deriving DecidableEq, Repr

inductive CbrDoc
  | malformed
  | doc (valutes : List Valute)
deriving DecidableEq, Repr

/-- `int(nominal_node.text.strip()) if nominal_node is not None and
nominal_node.text else 1`, with the surrounding `except: nominal = 1`. -/
def valuteNominal (intFn : String → Option Int) (v : Valute) : Int :=
  match v.nominal? with
  | none => 1
  | some t => if t = "" then 1 else (intFn (pyStrip t)).getD 1

/-- The value node's text: `Value`, falling back to `VunitRate` when the
`Value` node is absent or has no text. -/
def valuteValueText? (v : Valute) : Option String :=
  match v.value? with
  | some s => some s
  | none => v.vunitRate?

inductive ElemResult
  | skip
  | abort
  | entry (code : String) (e : RateEntry)
deriving DecidableEq, Repr

/-- One iteration of `parse_cbr_xml`'s `for val in root.findall(".//Valute")`
loop.  `skip` is a `continue` (missing code, code not on the watch-list,
missing/unparsable value — those exceptions are caught); `abort` is the
uncaught ZeroDivisionError of `rate = value_float / nominal` when the
parsed nominal is 0 (the division sits outside every `try` block). -/
def valuteStep (floatFn : String → Option ℚ) (intFn : String → Option Int)
    (wanted : List String) (v : Valute) : ElemResult :=
  match v.charCode? with
  | none => .skip
  | some codeText =>
    if wanted.contains (pyStrip codeText) then
      match valuteValueText? v with
      | none => .skip
      | some raw =>
        match floatFn (pyReplaceCommaDot (pyStrip raw)) with
        | none => .skip
        | some x =>
          let nominal := valuteNominal intFn v
          if nominal = 0 then .abort
          else .entry (pyStrip codeText) ⟨x / (nominal : ℚ), nominal, "ЦБ РФ"⟩
    else .skip

def parseValutes (floatFn : String → Option ℚ) (intFn : String → Option Int)
    (wanted : List String) :
    List Valute → List (String × RateEntry) →
    Except Unit (List (String × RateEntry))
  | [], acc => .ok acc
  | v :: rest, acc =>
    match valuteStep floatFn intFn wanted v with
    | .skip => parseValutes floatFn intFn wanted rest acc
    | .abort => .error ()
    | .entry c e => parseValutes floatFn intFn wanted rest (alSet acc c e)

/-- `parse_cbr_xml(content, wanted)`: an unparsable document yields the
empty dict; otherwise the `Valute` elements are folded into `result`,
`.error` marking the uncaught ZeroDivisionError escaping the function. -/
def parse_cbr_xml (floatFn : String → Option ℚ) (intFn : String → Option Int)
    (wanted : List String) : CbrDoc → Except Unit (List (String × RateEntry))
  | .malformed => .ok []
  | .doc vs => parseValutes floatFn intFn wanted vs []

/-- The qualifying `(code, entry)` pairs of a document's element list, in
document order: the pairs `parse_cbr_xml` inserts into `result`. -/
def valuteEntries (floatFn : String → Option ℚ) (intFn : String → Option Int)
    (wanted : List String) (vs : List Valute) : List (String × RateEntry) :=
  vs.filterMap (fun v =>
    match valuteStep floatFn intFn wanted v with
    | .entry c e => some (c, e)
    | _ => none)

/-- Outcome of one HTTP GET against the bank feed. -/
inductive CbrOutcome
  | transportError
  | response (status : Int) (doc : CbrDoc)
deriving DecidableEq, Repr

/-- The hard-coded base entry of the async adapter `fetch_cbr`
(poller.py): `{"RUB": {"rate": 1.0, "nominal": 1, "source": CBR_SOURCE}}`. -/
def cbrFallback (cbrSource : String) : List (String × RateEntry) :=
  [("RUB", ⟨1, 1, cbrSource⟩)]

/-- `fetch_cbr(wanted)` (poller.py lines 14-65): fallback map on transport
error or a non-200 status; otherwise the base entry updated with the
parsed entries, a parse exception yielding `parsed = {}`. -/
def fetch_cbr (cbrSource : String) (floatFn : String → Option ℚ)
    (intFn : String → Option Int) (wanted : List String) (o : CbrOutcome) :
    List (String × RateEntry) :=
  match o with
  | .transportError => cbrFallback cbrSource
  | .response status doc =>
    if status ≠ 200 then cbrFallback cbrSource
    else
      let parsed := (parse_cbr_xml floatFn intFn wanted doc).toOption.getD []
      alUpdate (cbrFallback cbrSource) parsed

abbrev RateMap := List (String × RateEntry)

abbrev CbrCache := List (String × RateMap)

/-- The hard-coded base entry of the sync adapter
`get_exchange_rates_for_date_sync` (parser.py):
`{"RUB": {"rate": 80.0, "nominal": 80, "source": CBR_SOURCE}}`. -/
def syncFallback (cbrSource : String) : RateMap :=
  [("RUB", ⟨80, 80, cbrSource⟩)]

/-- `get_exchange_rates_for_date_sync(dt)` (parser.py lines 60-114): serves
the per-date cache when the formatted date is present; on transport error
or non-200 caches and returns the 80.0/80 fallback; otherwise caches the
fallback updated with the parsed entries.  Its `parse_cbr_xml` call is not
wrapped in a `try`, so a parse-time ZeroDivisionError escapes (`.error`). -/
def get_exchange_rates_for_date_sync (cbrSource : String)
    (floatFn : String → Option ℚ) (intFn : String → Option Int)
    (wanted : List String) (cache : CbrCache) (dateStr : String)
    (o : CbrOutcome) : Except Unit (RateMap × CbrCache) :=
  match alGet? cache dateStr with
  | some m => .ok (m, cache)
  | none =>
    match o with
    | .transportError =>
      .ok (syncFallback cbrSource, alSet cache dateStr (syncFallback cbrSource))
    | .response status doc =>
      if status ≠ 200 then
        .ok (syncFallback cbrSource,
             alSet cache dateStr (syncFallback cbrSource))
      else
        match parse_cbr_xml floatFn intFn wanted doc with
        | .error _ => .error ()
        | .ok parsed =>
          let rates := alUpdate (syncFallback cbrSource) parsed
          .ok (rates, alSet cache dateStr rates)

/-! ## Crypto adapter (fetch_binance / get_crypto_rates_from_binance) -/

/-- `float(data["price"])`: either a numeric value or a
ValueError/TypeError. -/
inductive PriceVal
  | numeric (p : ℚ)
  | nonNumeric
deriving Repr

/-- The response body: `response.json()` raising, or a JSON object with or
without a `"price"` field. -/
inductive BinanceBody
  | unparsable
  | parsed (price? : Option PriceVal)
deriving Repr

inductive BinanceOutcome
  | transportError
  | response (status : Int) (body : BinanceBody)
deriving Repr

/-- Python's `s or d` for strings (`CRYPTO_SOURCE or "Binance"`). -/
def strOr (s d : String) : String := if s = "" then d else s

/-- The per-symbol body of `fetch_binance`'s loop (poller.py lines 75-129):
`none` is a `continue` (transport error, non-200, unparsable body, missing
or non-numeric price); a successful lookup yields
`{"rate": price * usd_rub_rate, "nominal": 1, "source": CRYPTO_SOURCE or "Binance"}`. -/
def binanceEntry? (cryptoSource : String) (usdRub : ℚ) (o : BinanceOutcome) :
    Option RateEntry :=
  match o with
  | .transportError => none
  | .response status body =>
    if status ≠ 200 then none
    else
      match body with
      | .unparsable => none
      | .parsed none => none
      | .parsed (some .nonNumeric) => none
      | .parsed (some (.numeric p)) =>
        some ⟨p * usdRub, 1, strOr cryptoSource "Binance"⟩

/-- The per-symbol body of `get_crypto_rates_from_binance`'s loop
(parser.py lines 124-181): identical control flow, but the stored entry is
`{"rate": price * usd_rub_rate, "nominal": 80, "source": CRYPTO_SOURCE or "binance"}`. -/
def binanceSyncEntry? (cryptoSource : String) (usdRub : ℚ)
    (o : BinanceOutcome) : Option RateEntry :=
  match o with
  | .transportError => none
  | .response status body =>
    if status ≠ 200 then none
    else
      match body with
      | .unparsable => none
      | .parsed none => none
      | .parsed (some .nonNumeric) => none
      | .parsed (some (.numeric p)) =>
        some ⟨p * usdRub, 80, strOr cryptoSource "binance"⟩

def binanceLoop (entry? : String → Option RateEntry) :
    List String → RateMap → RateMap
  | [], acc => acc
  | sym :: rest, acc =>
    match entry? sym with
    | none => binanceLoop entry? rest acc
    | some e => binanceLoop entry? rest (alSet acc sym e)

/-- `fetch_binance(symbols, usd_rub_rate)` with the per-symbol network
outcome given by `net`. -/
def fetch_binance (cryptoSource : String) (symbols : List String) (usdRub : ℚ)
    (net : String → BinanceOutcome) : RateMap :=
  binanceLoop (fun sym => binanceEntry? cryptoSource usdRub (net sym)) symbols []

/-- `get_crypto_rates_from_binance(symbols, usd_rub_rate)` (sync variant). -/
def get_crypto_rates_from_binance (cryptoSource : String)
    (symbols : List String) (usdRub : ℚ) (net : String → BinanceOutcome) :
    RateMap :=
  binanceLoop (fun sym => binanceSyncEntry? cryptoSource usdRub (net sym))
    symbols []

/-- `Poller.run_once` (poller.py lines 227-251): fetch the central-bank
map, read the USD rate from it (80.0 when absent), fetch the crypto map
with it, merge (`combined = {}` updated with the bank map, then with the
crypto map) and run the Store Writer pass.  Every component of the model
is total, mirroring the fact that `fetch_cbr` and `fetch_binance` recover
every upstream failure internally and that the method's own catch-all
`except Exception` keeps a pass from ever throwing; storage effects are
the pure pass as in `process_and_store`. -/
def run_once (cbrSource cryptoSource : String) (floatFn : String → Option ℚ)
    (intFn : String → Option Int) (wantedMoney cryptoCodes : List String)
    (now : Nat) (store : Store) (cbrOut : CbrOutcome)
    (net : String → BinanceOutcome) : StepResult :=
  let rates := fetch_cbr cbrSource floatFn intFn wantedMoney cbrOut
  let usdRub :=
    match alGet? rates "USD" with
    | some e => e.rate
    | none => 80
  let crypto := fetch_binance cryptoSource cryptoCodes usdRub net
  let combined := alUpdate (alUpdate [] rates) crypto
  process_and_store cryptoCodes now store combined

/-! ## Connection registry (app/ws/manager.py) and fan-out -/

abbrev WsId := Nat

/-- The methods the `ConnectionManager` class body defines.  Note there is
no `wait_for_clients` among them, although `app/api/items.py` calls
`manager.wait_for_clients(timeout=DEFAULT_TIMEOUT)` in three handlers and
`__init__` prepares the `_has_clients` event such a method would wait on. -/
def connectionManagerMethods : List String :=
  ["__init__", "connect", "disconnect", "broadcast"]

/-- Whether the attribute lookup `manager.wait_for_clients` succeeds. -/
def waitForClientsDefined : Bool :=
  connectionManagerMethods.contains "wait_for_clients"

structure BroadcastResult where
  attempts : List WsId
  delivered : List WsId
  active' : List WsId
deriving DecidableEq, Repr

/-- The send loop of `ConnectionManager.broadcast`: `for ws in
list(self.active)` attempts one send per registered subscriber, collecting
the failures in `bad`.  Returns `(delivered, bad)`. -/
def sendAll (ok : WsId → Bool) : List WsId → List WsId × List WsId
  | [] => ([], [])
  | w :: rest =>
    let db := sendAll ok rest
    if ok w then (w :: db.1, db.2) else (db.1, w :: db.2)

/-- `ConnectionManager.broadcast(message)`: returns immediately when the
subscriber set is empty; otherwise sends to every subscriber, then evicts
(`disconnect`) exactly the subscribers whose send raised. -/
def wsBroadcast (active : List WsId) (ok : WsId → Bool) : BroadcastResult :=
  if active.isEmpty then ⟨[], [], active⟩
  else
    let db := sendAll ok active
    ⟨active, db.1, active.filter (fun w => decide (w ∉ db.2))⟩

structure FanoutResult where
  ws : BroadcastResult
  busDeliveries : Nat
deriving DecidableEq, Repr

/-- The fan-out of one change event in `Poller.process_and_store`: a
`try manager.broadcast(payload)` whose failure is caught, followed by a
`try self.nats.publish("items.updates", payload)` whose failure is caught,
so the bus publish is attempted exactly once regardless of the registry
outcome. -/
def fanoutEvent (active : List WsId) (ok : WsId → Bool) (busOk : Bool) :
    FanoutResult :=
  ⟨wsBroadcast active ok, if busOk then 1 else 0⟩

/-! ## create_item's notification step (app/api/items.py lines 132-158) -/

inductive NotifyOutcome
  | completed
  | httpError (status : Nat)
deriving DecidableEq, Repr

structure CreateItemNotify where
  outcome : NotifyOutcome
  busAttempted : Bool
deriving DecidableEq, Repr

/-- After committing a created record, `create_item` runs
`client_present = await manager.wait_for_clients(timeout=DEFAULT_TIMEOUT)`
inside `try: ... except Exception: raise HTTPException(500)`, then — only
when no exception was raised — attempts the NATS publish.  Since
`ConnectionManager` defines no `wait_for_clients` method, the attribute
lookup raises AttributeError, the handler answers 500 and the bus publish
is never reached. -/
def create_item_notify : CreateItemNotify :=
  if waitForClientsDefined then ⟨.completed, true⟩
  else ⟨.httpError 500, false⟩

/-! ## Scheduler loop (Poller._loop / Poller.run_once) -/

/-- What one scheduled pass does: returns normally, raises an `Exception`
(every non-cancellation error — `run_once` itself catches these with
`except Exception`), or observes task cancellation (`CancelledError`,
which is not an `Exception` and so propagates to `_loop`). -/
inductive PassOutcome
  | ok
  | exn
  | cancelled
deriving DecidableEq, Repr

structure LoopResult where
  passes : Nat
  sleeps : Nat
  stoppedByCancel : Bool
deriving DecidableEq, Repr

/-- `Poller._loop`: `while True: try: await self.run_once() except
CancelledError: break except Exception: log; await sleep(interval)`,
driven by the trace of pass outcomes (an exhausted trace models a loop
still running). -/
def pollerLoop : List PassOutcome → LoopResult
  | [] => ⟨0, 0, false⟩
  | o :: rest =>
    match o with
    | .cancelled => ⟨1, 0, true⟩
    | _ =>
      let r := pollerLoop rest
      ⟨r.passes + 1, r.sleeps + 1, r.stoppedByCancel⟩

/-! ## NATS subscriber (app/nats/subscriber.py on_message) -/

/-- The decoded `"item"` object of an inbound bus message; `none` fields
are absent keys. -/
structure BusItem where
  code? : Option String
  rate? : Option ℚ
  nominal? : Option Int
  source? : Option String
  is_crypto? : Option Bool
deriving DecidableEq, Repr

structure BusMsg where
  item? : Option BusItem
deriving DecidableEq, Repr

inductive InboundMsg
  | undecodable
  | decoded (m : BusMsg)
deriving DecidableEq, Repr

structure OnMsgResult where
  store : Store
  rebroadcasts : List BusMsg
deriving DecidableEq, Repr

/-- The storage block of `on_message`: the lookup-then-create/overwrite on
the record with the message's code.  The create path reads
`item_data["rate"/"nominal"/"source"/"is_crypto"]` and the update path
assigns the same four keys before `commit`; a missing key raises KeyError,
which the `try: ... finally: break` swallows (a `break` in `finally`
discards the in-flight exception), leaving the committed store unchanged. -/
def upsertFromBus (now : Nat) (store : Store) (code : String) (it : BusItem) :
    Store :=
  match it.rate?, it.nominal?, it.source?, it.is_crypto? with
  | some r, some n, some s, some c =>
    (match lookupCode store code with
     | none => store ++ [⟨freshId store, code, code, r, n, s, c, now⟩]
     | some old =>
       store.map (fun r0 =>
         if r0.code = code then
           { old with rate := r, nominal := n, source := s, is_crypto := c }
         else r0))
  | _, _, _, _ => store

/-- `on_message(msg)` (subscriber.py lines 9-74): an undecodable payload is
dropped; a falsy `item` or falsy `code` returns before the storage block;
otherwise the upsert runs and the raw message is re-broadcast to the live
registry (the broadcast is reached even when the storage block swallowed a
KeyError, because the `finally: break` discards the exception). -/
def on_message (now : Nat) (store : Store) (msg : InboundMsg) : OnMsgResult :=
  match msg with
  | .undecodable => ⟨store, []⟩
  | .decoded m =>
    match m.item? with
    | none => ⟨store, []⟩
    | some it =>
      match it.code? with
      | none => ⟨store, []⟩
      | some code =>
        if code = "" then ⟨store, []⟩
        else ⟨upsertFromBus now store code it, [m]⟩

/-! ## Concrete fixtures used by witnesses and counterexamples -/

/-- A two-valued stand-in for Python's `float` builtin. -/
def cxFloatFn : String → Option ℚ :=
  fun s => if s = "1.5" then some (3 / 2) else if s = "2.0" then some 2 else none

/-- A two-valued stand-in for Python's `int` builtin. -/
def cxIntFn : String → Option Int :=
  fun s => if s = "0" then some 0 else if s = "1" then some 1 else none

/-- A watch-listed element whose nominal text parses to 0. -/
def cxValuteZero : Valute := ⟨some "USD", some "1,5", none, some "0"⟩

/-- A perfectly well-formed watch-listed element. -/
def cxValuteGood : Valute := ⟨some "EUR", some "2.0", none, some "1"⟩

/-- The parse result of a document holding only `cxValuteGood`. -/
def cxParsedMap : List (String × RateEntry) :=
  [("EUR", ⟨2 / ((1 : Int) : ℚ), 1, "ЦБ РФ"⟩)]

/-- An inbound bus message whose item carries a code but no rate. -/
def cxBusMsg : BusMsg := ⟨some ⟨some "USD", none, none, none, none⟩⟩

/-- The spec's loop-back example item
`{"code": "USD", "rate": 90.5, "nominal": 1, "source": "x",
"is_crypto": false}` (90.5 = 181/2). -/
def cxFullItem : BusItem := ⟨some "USD", some (181 / 2), some 1, some "x", some false⟩

def cxFullMsg : BusMsg := ⟨some cxFullItem⟩

/-- A persisted record used by witnesses. -/
def cxItem : ItemRecord := ⟨1, "USD", "USD", 90, 1, "cbr", false, 5⟩

/-- A fetched entry whose rate differs from `cxItem`'s by 1. -/
def cxEntry : RateEntry := ⟨91, 2, "x"⟩

/-- A merged two-code map used by witnesses. -/
def cxCombined : List (String × RateEntry) :=
  [("USD", ⟨90, 1, "cbr"⟩), ("BTC", ⟨5000000, 1, "Binance"⟩)]

/-- A send predicate under which subscriber 1 succeeds and 2 fails. -/
def cxSendOk : WsId → Bool := fun w => w == 1

/-! ## Helper lemmas on the store -/

theorem lookupCode_code_eq {store : Store} {code : String} {item : ItemRecord}
    (h : lookupCode store code = some item) : item.code = code := by
  induction store with
  | nil => simp [lookupCode] at h
  | cons r rest ih =>
    by_cases hc : r.code = code
    · simp [lookupCode, hc] at h
      rw [← h]
      exact hc
    · simp [lookupCode, hc] at h
      exact ih h

theorem lookupCode_append_ne (store : Store) (r : ItemRecord) (c : String)
    (h : r.code ≠ c) : lookupCode (store ++ [r]) c = lookupCode store c := by
  induction store with
  | nil => simp [lookupCode, h]
  | cons a rest ih =>
    by_cases hc : a.code = c
    · simp [lookupCode, hc]
    · simp [lookupCode, hc, ih]

theorem lookupCode_append_self (store : Store) (r : ItemRecord)
    (h : lookupCode store r.code = none) :
    lookupCode (store ++ [r]) r.code = some r := by
  induction store with
  | nil => simp [lookupCode]
  | cons a rest ih =>
    by_cases hc : a.code = r.code
    · simp [lookupCode, hc] at h
    · simp [lookupCode, hc] at h ⊢
      exact ih h

theorem lookupCode_map_if (store : Store) (code : String) (g : ItemRecord)
    (hg : g.code = code) (item : ItemRecord)
    (h : lookupCode store code = some item) :
    lookupCode (store.map (fun r => if r.code = code then g else r)) code =
      some g := by
  induction store with
  | nil => simp [lookupCode] at h
  | cons a rest ih =>
    by_cases hc : a.code = code
    · have hh : (if a.code = code then g else a) = g := if_pos hc
      simp [List.map_cons, lookupCode, hh, hg]
    · have hh : (if a.code = code then g else a) = a := if_neg hc
      simp only [lookupCode, if_neg hc] at h
      simp only [List.map_cons, lookupCode, hh, if_neg hc]
      exact ih h

theorem lookupCode_map_if_ne (store : Store) (code c : String) (g : ItemRecord)
    (hg : g.code = code) (hne : c ≠ code) :
    lookupCode (store.map (fun r => if r.code = code then g else r)) c =
      lookupCode store c := by
  induction store with
  | nil => simp [lookupCode]
  | cons a rest ih =>
    by_cases hc : a.code = code
    · have hh : (if a.code = code then g else a) = g := if_pos hc
      have h1 : ¬ g.code = c := by rw [hg]; exact fun hx => hne hx.symm
      have h2 : ¬ a.code = c := by rw [hc]; exact fun hx => hne hx.symm
      simp only [List.map_cons, lookupCode, hh, if_neg h1, if_neg h2]
      exact ih
    · have hh : (if a.code = code then g else a) = a := if_neg hc
      simp only [List.map_cons, lookupCode, hh]
      by_cases hac : a.code = c
      · simp [hac]
      · simp only [if_neg hac]
        exact ih

theorem stepCode_lookup_ne (κ : List String) (now : Nat) (store : Store)
    (code : String) (info : ItemInfo) (c : String) (hne : c ≠ code) :
    lookupCode (stepCode κ now store code info).store c =
      lookupCode store c := by
  cases hl : lookupCode store code with
  | none =>
    cases hr : info.rate? with
    | none => simp [stepCode, hl, hr]
    | some x =>
      simp only [stepCode, hl, hr]
      exact lookupCode_append_ne store _ c (fun h => hne h.symm)
  | some item =>
    cases hr : info.rate? with
    | none => simp [stepCode, hl, hr]
    | some x =>
      by_cases hd : eps < |item.rate - x|
      · simp only [stepCode, hl, hr, if_pos hd]
        refine lookupCode_map_if_ne store code c _ ?_ hne
        exact (lookupCode_code_eq hl : item.code = code)
      · simp only [stepCode, hl, hr, if_neg hd]

theorem stepCode_settled (κ : List String) (now : Nat) (store : Store)
    (code : String) (e : RateEntry) :
    ∃ r, lookupCode (stepCode κ now store code e.toInfo).store code = some r ∧
      |r.rate - e.rate| ≤ eps := by
  cases hl : lookupCode store code with
  | none =>
    simp only [stepCode, RateEntry.toInfo, hl]
    refine ⟨_, lookupCode_append_self store _ hl, ?_⟩
    simp [eps]
  | some item =>
    by_cases hd : eps < |item.rate - e.rate|
    · simp only [stepCode, RateEntry.toInfo, hl, hd, if_true]
      refine ⟨_, lookupCode_map_if store code _ ?_ item hl, ?_⟩
      · exact (lookupCode_code_eq hl : item.code = code)
      · simp [eps]
    · simp only [stepCode, RateEntry.toInfo, hl, hd, if_false]
      exact ⟨item, rfl, le_of_not_lt hd⟩

theorem stepCode_noop (κ : List String) (now : Nat) (store : Store)
    (code : String) (e : RateEntry) (item : ItemRecord)
    (hl : lookupCode store code = some item)
    (hd : |item.rate - e.rate| ≤ eps) :
    stepCode κ now store code e.toInfo = ⟨store, [], 0⟩ := by
  simp only [stepCode, RateEntry.toInfo, hl]
  rw [if_neg (not_lt.mpr hd)]

theorem process_lookup_ne (κ : List String) (now : Nat) (c : String) :
    ∀ (combined : List (String × RateEntry)) (store : Store),
      c ∉ combined.map Prod.fst →
      lookupCode (process_and_store κ now store combined).store c =
        lookupCode store c := by
  intro combined
  induction combined with
  | nil => intro store h; rfl
  | cons q rest ih =>
    intro store h
    obtain ⟨c0, e0⟩ := q
    simp only [List.map_cons, List.mem_cons] at h
    push_neg at h
    obtain ⟨h1, h2⟩ := h
    simp only [process_and_store]
    rw [ih _ h2, stepCode_lookup_ne _ _ _ _ _ _ h1]

theorem process_settles (κ : List String) (now : Nat) :
    ∀ (combined : List (String × RateEntry)) (store : Store),
      (combined.map Prod.fst).Nodup →
      ∀ p ∈ combined,
        ∃ r, lookupCode (process_and_store κ now store combined).store p.1 =
              some r ∧
          |r.rate - p.2.rate| ≤ eps := by
  intro combined
  induction combined with
  | nil => intro store hnd p hp; simp at hp
  | cons q rest ih =>
    intro store hnd p hp
    obtain ⟨c0, e0⟩ := q
    simp only [List.map_cons, List.nodup_cons] at hnd
    obtain ⟨hc0, hndr⟩ := hnd
    simp only [process_and_store]
    rcases List.mem_cons.mp hp with hp1 | hp2
    · subst hp1
      obtain ⟨r, hr, hre⟩ := stepCode_settled κ now store c0 e0
      refine ⟨r, ?_, hre⟩
      rw [process_lookup_ne κ now c0 rest _ hc0]
      exact hr
    · exact ih _ hndr p hp2

theorem process_noop (κ : List String) (now : Nat) :
    ∀ (combined : List (String × RateEntry)) (store : Store),
      (∀ p ∈ combined,
        ∃ r, lookupCode store p.1 = some r ∧ |r.rate - p.2.rate| ≤ eps) →
      process_and_store κ now store combined = ⟨store, [], 0⟩ := by
  intro combined
  induction combined with
  | nil => intro store h; rfl
  | cons q rest ih =>
    intro store h
    obtain ⟨c0, e0⟩ := q
    obtain ⟨r, hr, hre⟩ := h (c0, e0) (List.mem_cons_self _ _)
    have hstep := stepCode_noop κ now store c0 e0 r hr hre
    have hrest := ih store (fun p hp => h p (List.mem_cons_of_mem _ hp))
    simp only [process_and_store, hstep, hrest]
    rfl

/-- C1: for a persisted record with code `c` and a fetched info for `c`,
the Store Writer updates the row (writing rate, nominal, source, is_crypto
and updated_at = now) and emits exactly one `updated` event when
`abs(existing.rate - info.rate) > 1e-9`, and performs no write and emits no
event when the delta is `1e-9` or smaller. -/
theorem c1_update_iff_epsilon (cryptoCodes : List String) (now : Nat)
    (store : Store) (code : String) (e : RateEntry) (item : ItemRecord)
    (h : lookupCode store code = some item) :
    (eps < |item.rate - e.rate| →
      (stepCode cryptoCodes now store code e.toInfo).writes = 1 ∧
      (stepCode cryptoCodes now store code e.toInfo).events =
        [⟨.updated, item.code, e.rate, e.nominal, e.source,
          cryptoCodes.contains code⟩] ∧
      lookupCode (stepCode cryptoCodes now store code e.toInfo).store code =
        some { item with
               rate := e.rate, nominal := e.nominal, source := e.source,
               is_crypto := cryptoCodes.contains code, updated_at := now }) ∧
    (|item.rate - e.rate| ≤ eps →
      stepCode cryptoCodes now store code e.toInfo = ⟨store, [], 0⟩) := by
  constructor
  · intro hd
    simp only [stepCode, RateEntry.toInfo, h, if_pos hd]
    refine ⟨by trivial, by trivial, ?_⟩
    refine lookupCode_map_if store code _ ?_ item h
    exact (lookupCode_code_eq h : item.code = code)
  · intro hd
    exact stepCode_noop cryptoCodes now store code e item h hd

theorem c1_update_iff_epsilon_witness :
    lookupCode [cxItem] "USD" = some cxItem ∧
    ((eps < |cxItem.rate - cxEntry.rate| →
      (stepCode [] 0 [cxItem] "USD" cxEntry.toInfo).writes = 1 ∧
      (stepCode [] 0 [cxItem] "USD" cxEntry.toInfo).events =
        [⟨.updated, cxItem.code, cxEntry.rate, cxEntry.nominal, cxEntry.source,
          List.contains [] "USD"⟩] ∧
      lookupCode (stepCode [] 0 [cxItem] "USD" cxEntry.toInfo).store "USD" =
        some { cxItem with
               rate := cxEntry.rate, nominal := cxEntry.nominal,
               source := cxEntry.source, is_crypto := List.contains [] "USD",
               updated_at := 0 }) ∧
    (|cxItem.rate - cxEntry.rate| ≤ eps →
      stepCode [] 0 [cxItem] "USD" cxEntry.toInfo = ⟨[cxItem], [], 0⟩)) :=
  ⟨by decide, c1_update_iff_epsilon [] 0 [cxItem] "USD" cxEntry cxItem (by decide)⟩

/-- C2: a second Store-Writer pass over the same stored state with the same
merged map (whose codes are dict-unique) performs zero writes and emits
zero change events: every code is left with a rate within the 1e-9
tolerance of the fetched one by the first pass. -/
theorem c2_second_pass_noop (cryptoCodes : List String) (now1 now2 : Nat)
    (store : Store) (combined : List (String × RateEntry))
    (hnd : (combined.map Prod.fst).Nodup) :
    process_and_store cryptoCodes now2
        (process_and_store cryptoCodes now1 store combined).store combined =
      ⟨(process_and_store cryptoCodes now1 store combined).store, [], 0⟩ := by
  apply process_noop
  intro p hp
  exact process_settles cryptoCodes now1 combined store hnd p hp

theorem c2_second_pass_noop_witness :
    (cxCombined.map Prod.fst).Nodup ∧
    process_and_store ["BTC"] 2
        (process_and_store ["BTC"] 1 [] cxCombined).store cxCombined =
      ⟨(process_and_store ["BTC"] 1 [] cxCombined).store, [], 0⟩ :=
  ⟨by decide, c2_second_pass_noop ["BTC"] 1 2 [] cxCombined (by decide)⟩

/-- C3: the claimed registry wait operation does not exist —
`ConnectionManager` defines no `wait_for_clients`, so the attribute call in
`create_item`'s broadcast step raises AttributeError, the surrounding
handler converts it to an HTTP 500, and the NATS publish that follows the
`try` block is never attempted, contradicting the claim that the wait
returns a boolean and the broadcast attempt neither raises nor skips bus
delivery. -/
theorem c3_wait_for_clients_missing :
    create_item_notify = ⟨.httpError 500, false⟩ ∧
    waitForClientsDefined = false := by
  constructor <;> rfl

/-- C8: the scheduler loop stops exactly when a pass observes cancellation;
on a trace free of cancellation every scheduled pass runs and each is
followed by the normal sleep. -/
theorem c8_loop_cancel_only (trace : List PassOutcome) :
    ((pollerLoop trace).stoppedByCancel = true ↔ .cancelled ∈ trace) ∧
    (.cancelled ∉ trace →
      pollerLoop trace = ⟨trace.length, trace.length, false⟩) := by
  induction trace with
  | nil =>
    refine ⟨?_, ?_⟩
    · simp [pollerLoop]
    · intro _
      rfl
  | cons o rest ih =>
    obtain ⟨ih1, ih2⟩ := ih
    cases o with
    | cancelled =>
      refine ⟨?_, ?_⟩
      · simp [pollerLoop]
      · intro h
        simp at h
    | ok =>
      refine ⟨?_, ?_⟩
      · simpa [pollerLoop] using ih1
      · intro h
        simp only [List.mem_cons, not_or] at h
        simp [pollerLoop, ih2 h.2]
    | exn =>
      refine ⟨?_, ?_⟩
      · simpa [pollerLoop] using ih1
      · intro h
        simp only [List.mem_cons, not_or] at h
        simp [pollerLoop, ih2 h.2]

theorem sendAll_eq (ok : WsId → Bool) :
    ∀ l : List WsId, sendAll ok l = (l.filter ok, l.filter (fun w => !ok w)) := by
  intro l
  induction l with
  | nil => rfl
  | cons w rest ih =>
    cases hw : ok w
    · simp [sendAll, ih, List.filter_cons, hw]
    · simp [sendAll, ih, List.filter_cons, hw]

theorem wsBroadcast_eq (active : List WsId) (ok : WsId → Bool) :
    wsBroadcast active ok = ⟨active, active.filter ok, active.filter ok⟩ := by
  by_cases he : active.isEmpty
  · have h0 : active = [] := List.isEmpty_iff.mp he
    subst h0
    rfl
  · have hf : active.filter
        (fun w => decide (w ∉ active.filter (fun w => !ok w))) =
        active.filter ok := by
      apply List.filter_congr
      intro w hw
      cases hok : ok w
      · simp [List.mem_filter, hw, hok]
      · simp [List.mem_filter, hw, hok]
    unfold wsBroadcast
    rw [if_neg he, sendAll_eq]
    show BroadcastResult.mk active (List.filter ok active)
        (active.filter (fun w => decide (w ∉ List.filter (fun w => !ok w) active))) = _
    rw [hf]

/-- C7: per change event, every subscriber registered at broadcast time
receives exactly one send attempt, the successfully delivered set is
exactly the subscribers whose send succeeds (each exactly once), the
subscribers whose send fails — and only those — are evicted, delivery to
the remaining subscribers still happens, and the bus publish is attempted
exactly once. -/
theorem c7_fanout_parity (active : List WsId) (ok : WsId → Bool)
    (hnd : active.Nodup) :
    (∀ w ∈ active, (fanoutEvent active ok true).ws.attempts.count w = 1) ∧
    (fanoutEvent active ok true).ws.delivered = active.filter ok ∧
    (∀ w ∈ active, ok w = true →
      (fanoutEvent active ok true).ws.delivered.count w = 1) ∧
    (fanoutEvent active ok true).ws.active' = active.filter ok ∧
    (∀ w ∈ active, ok w = false → w ∉ (fanoutEvent active ok true).ws.active') ∧
    (fanoutEvent active ok true).busDeliveries = 1 := by
  simp only [fanoutEvent, wsBroadcast_eq]
  refine ⟨?_, by trivial, ?_, by trivial, ?_, by trivial⟩
  · intro w hw
    exact List.count_eq_one_of_mem hnd hw
  · intro w hw hok
    exact List.count_eq_one_of_mem (hnd.filter ok)
      (List.mem_filter.mpr ⟨hw, hok⟩)
  · intro w hw hok
    simp [List.mem_filter, hok]

theorem c7_fanout_parity_witness :
    List.Nodup [1, 2] ∧
    ((∀ w ∈ [1, 2], (fanoutEvent [1, 2] cxSendOk true).ws.attempts.count w = 1) ∧
    (fanoutEvent [1, 2] cxSendOk true).ws.delivered = [1, 2].filter cxSendOk ∧
    (∀ w ∈ [1, 2], cxSendOk w = true →
      (fanoutEvent [1, 2] cxSendOk true).ws.delivered.count w = 1) ∧
    (fanoutEvent [1, 2] cxSendOk true).ws.active' = [1, 2].filter cxSendOk ∧
    (∀ w ∈ [1, 2], cxSendOk w = false →
      w ∉ (fanoutEvent [1, 2] cxSendOk true).ws.active') ∧
    (fanoutEvent [1, 2] cxSendOk true).busDeliveries = 1) :=
  ⟨by decide, c7_fanout_parity [1, 2] cxSendOk (by decide)⟩

theorem alGet?_alSet_self {α : Type} (m : List (String × α)) (k : String)
    (v : α) : alGet? (alSet m k v) k = some v := by
  induction m with
  | nil => simp [alSet, alGet?]
  | cons p rest ih =>
    by_cases hp : p.1 = k
    · simp [alSet, hp, alGet?]
    · simp [alSet, hp, alGet?, ih]

theorem alGet?_alSet_ne {α : Type} (m : List (String × α)) (k : String)
    (v : α) (c : String) (h : c ≠ k) :
    alGet? (alSet m k v) c = alGet? m c := by
  have hk : k ≠ c := Ne.symm h
  induction m with
  | nil => simp [alSet, alGet?, hk]
  | cons p rest ih =>
    by_cases hp : p.1 = k
    · have hp' : p.1 ≠ c := by rw [hp]; exact hk
      simp [alSet, hp, alGet?, hk, hp']
    · by_cases hq : p.1 = c
      · simp [alSet, hp, alGet?, hq, h]
      · simp [alSet, hp, alGet?, hq, ih]

theorem alGet?_eq_none_of_not_mem {α : Type} :
    ∀ (m : List (String × α)) (k : String), k ∉ m.map Prod.fst →
      alGet? m k = none := by
  intro m
  induction m with
  | nil => intro k _; rfl
  | cons p rest ih =>
    intro k h
    simp only [List.map_cons, List.mem_cons, not_or] at h
    have hp : p.1 ≠ k := fun hh => h.1 hh.symm
    simp [alGet?, hp, ih k h.2]

theorem alGet?_of_mem_nodup {α : Type} :
    ∀ (m : List (String × α)) (c : String) (v : α),
      (m.map Prod.fst).Nodup → (c, v) ∈ m → alGet? m c = some v := by
  intro m
  induction m with
  | nil => intro c v _ hm; simp at hm
  | cons p rest ih =>
    intro c v h hm
    simp only [List.map_cons, List.nodup_cons] at h
    obtain ⟨hp, hrest⟩ := h
    rcases List.mem_cons.mp hm with h1 | h2
    · rw [← h1]
      simp [alGet?]
    · have hc : p.1 ≠ c := by
        intro hh
        apply hp
        rw [hh]
        exact List.mem_map_of_mem Prod.fst h2
      simp only [alGet?, if_neg hc]
      exact ih c v hrest h2

theorem mem_of_alGet? {α : Type} :
    ∀ (m : List (String × α)) (c : String) (v : α),
      alGet? m c = some v → (c, v) ∈ m := by
  intro m
  induction m with
  | nil => intro c v h; simp [alGet?] at h
  | cons p rest ih =>
    intro c v h
    obtain ⟨p1, p2⟩ := p
    by_cases hp : p1 = c
    · simp only [alGet?, if_pos hp] at h
      have hv : p2 = v := Option.some.inj h
      subst hp
      subst hv
      exact List.mem_cons_self _ _
    · simp only [alGet?, if_neg hp] at h
      exact List.mem_cons_of_mem _ (ih c v h)

theorem alGet?_alUpdate_isSome {α : Type} (k : String) :
    ∀ (m2 m1 : List (String × α)), (alGet? m1 k).isSome →
      (alGet? (alUpdate m1 m2) k).isSome := by
  intro m2
  induction m2 with
  | nil => intro m1 h; exact h
  | cons p rest ih =>
    intro m1 h
    show (alGet? (alUpdate (alSet m1 p.1 p.2) rest) k).isSome
    apply ih
    by_cases hp : p.1 = k
    · rw [hp, alGet?_alSet_self]
      rfl
    · rw [alGet?_alSet_ne m1 p.1 p.2 k (fun hh => hp hh.symm)]
      exact h

theorem alGet?_alUpdate_nodup {α : Type} (k : String) :
    ∀ (m2 m1 : List (String × α)), (m2.map Prod.fst).Nodup →
      alGet? (alUpdate m1 m2) k =
        (match alGet? m2 k with
         | some v => some v
         | none => alGet? m1 k) := by
  intro m2
  induction m2 with
  | nil => intro m1 _; rfl
  | cons p rest ih =>
    intro m1 h
    simp only [List.map_cons, List.nodup_cons] at h
    obtain ⟨hp, hrest⟩ := h
    show alGet? (alUpdate (alSet m1 p.1 p.2) rest) k = _
    rw [ih _ hrest]
    by_cases hk : p.1 = k
    · have hkrest : alGet? rest k = none := by
        apply alGet?_eq_none_of_not_mem
        rw [← hk]
        exact hp
      rw [hkrest, hk, alGet?_alSet_self]
      simp [alGet?, hk]
    · rw [alGet?_alSet_ne m1 p.1 p.2 k (fun hh => hk hh.symm)]
      simp only [alGet?, if_neg hk]

theorem alGet?_alUpdate_isSome_right {α : Type} (k : String) :
    ∀ (m2 m1 : List (String × α)), (alGet? m2 k).isSome →
      (alGet? (alUpdate m1 m2) k).isSome := by
  intro m2
  induction m2 with
  | nil => intro m1 h; simp [alGet?] at h
  | cons p rest ih =>
    intro m1 h
    show (alGet? (alUpdate (alSet m1 p.1 p.2) rest) k).isSome
    by_cases hp : p.1 = k
    · apply alGet?_alUpdate_isSome
      rw [hp, alGet?_alSet_self]
      rfl
    · apply ih
      simpa [alGet?, hp] using h

theorem mem_keys_of_isSome {α : Type} (m : List (String × α)) (k : String)
    (h : (alGet? m k).isSome) : k ∈ m.map Prod.fst := by
  cases hg : alGet? m k with
  | none => rw [hg] at h; simp at h
  | some v => exact List.mem_map_of_mem Prod.fst (mem_of_alGet? m k v hg)

theorem lookupCode_map_if_isSome (store : Store) (code : String)
    (g : ItemRecord) (hg : g.code = code) (c : String)
    (h : (lookupCode store c).isSome) :
    (lookupCode (store.map (fun r => if r.code = code then g else r))
      c).isSome := by
  by_cases hc : c = code
  · subst hc
    cases hl : lookupCode store c with
    | none => rw [hl] at h; simp at h
    | some item =>
      rw [lookupCode_map_if store c g hg item hl]
      rfl
  · rw [lookupCode_map_if_ne store code c g hg hc]
    exact h

theorem stepCode_preserves_isSome (κ : List String) (now : Nat)
    (store : Store) (code : String) (info : ItemInfo) (c : String)
    (h : (lookupCode store c).isSome) :
    (lookupCode (stepCode κ now store code info).store c).isSome := by
  by_cases hc : c = code
  · subst hc
    cases hl : lookupCode store c with
    | none =>
      rw [hl] at h
      simp at h
    | some item =>
      cases hr : info.rate? with
      | none =>
        simp only [stepCode, hl, hr]
        rfl
      | some x =>
        by_cases hd : eps < |item.rate - x|
        · simp only [stepCode, hl, hr, if_pos hd]
          apply lookupCode_map_if_isSome
          · exact (lookupCode_code_eq hl : item.code = c)
          · exact h
        · simp only [stepCode, hl, hr, if_neg hd]
          rfl
  · rw [stepCode_lookup_ne κ now store code info c hc]
    exact h

theorem process_preserves_isSome (κ : List String) (now : Nat) (c : String) :
    ∀ (combined : List (String × RateEntry)) (store : Store),
      (lookupCode store c).isSome →
      (lookupCode (process_and_store κ now store combined).store c).isSome := by
  intro combined
  induction combined with
  | nil => intro store h; exact h
  | cons q rest ih =>
    intro store h
    obtain ⟨c0, e0⟩ := q
    simp only [process_and_store]
    exact ih _ (stepCode_preserves_isSome κ now store c0 e0.toInfo c h)

theorem process_key_isSome (κ : List String) (now : Nat) (c : String) :
    ∀ (combined : List (String × RateEntry)) (store : Store),
      c ∈ combined.map Prod.fst →
      (lookupCode (process_and_store κ now store combined).store c).isSome := by
  intro combined
  induction combined with
  | nil => intro store h; simp at h
  | cons q rest ih =>
    intro store h
    obtain ⟨c0, e0⟩ := q
    simp only [List.map_cons, List.mem_cons] at h
    simp only [process_and_store]
    rcases h with h1 | h2
    · subst h1
      apply process_preserves_isSome
      obtain ⟨r, hr, _⟩ := stepCode_settled κ now store c e0
      rw [hr]
      rfl
    · exact ih _ h2

/-- C4 (amended): for every central-bank fetch outcome — transport
failure, non-200 status, or success — the async adapter `fetch_cbr` used
by the Poller returns a map containing the base 'RUB' entry and
propagates no exception (on transport failure or non-200 it is exactly
the hard-coded fallback entry with rate 1.0 and nominal 1), and the
pipeline pass `run_once` proceeds without throwing — its resulting store
always holds a 'RUB' record.  The sync adapter
`get_exchange_rates_for_date_sync` cited alongside it does not satisfy
this contract: its fallback entry carries rate 80.0 and nominal 80, and
on a 200 response with a zero-nominal watch-listed element it propagates
an uncaught ZeroDivisionError (see the counterexample). -/
theorem c4_rub_presence (cbrSource cryptoSource : String)
    (floatFn : String → Option ℚ) (intFn : String → Option Int)
    (wantedMoney cryptoCodes : List String) :
    (∀ o : CbrOutcome,
      (alGet? (fetch_cbr cbrSource floatFn intFn wantedMoney o)
        "RUB").isSome) ∧
    fetch_cbr cbrSource floatFn intFn wantedMoney .transportError =
      [("RUB", ⟨1, 1, cbrSource⟩)] ∧
    (∀ (status : Int) (doc : CbrDoc), status ≠ 200 →
      fetch_cbr cbrSource floatFn intFn wantedMoney (.response status doc) =
        [("RUB", ⟨1, 1, cbrSource⟩)]) ∧
    (∀ (now : Nat) (store : Store) (o : CbrOutcome)
        (net : String → BinanceOutcome),
      (lookupCode (run_once cbrSource cryptoSource floatFn intFn wantedMoney
          cryptoCodes now store o net).store "RUB").isSome) ∧
    (∀ (cache : CbrCache) (dateStr : String), alGet? cache dateStr = none →
      get_exchange_rates_for_date_sync cbrSource floatFn intFn wantedMoney
          cache dateStr .transportError =
        .ok ([("RUB", ⟨80, 80, cbrSource⟩)],
             alSet cache dateStr [("RUB", ⟨80, 80, cbrSource⟩)])) := by
  have hrub : ∀ o : CbrOutcome,
      (alGet? (fetch_cbr cbrSource floatFn intFn wantedMoney o)
        "RUB").isSome := by
    intro o
    cases o with
    | transportError => simp [fetch_cbr, cbrFallback, alGet?]
    | response status doc =>
      by_cases hs : status ≠ 200
      · simp [fetch_cbr, hs, cbrFallback, alGet?]
      · simp only [fetch_cbr, hs, if_false]
        apply alGet?_alUpdate_isSome
        simp [cbrFallback, alGet?]
  refine ⟨hrub, rfl, ?_, ?_, ?_⟩
  · intro status doc h
    simp [fetch_cbr, h, cbrFallback]
  · intro now store o net
    simp only [run_once]
    apply process_key_isSome
    apply mem_keys_of_isSome
    apply alGet?_alUpdate_isSome
    apply alGet?_alUpdate_isSome_right
    exact hrub o
  · intro cache dateStr h
    simp [get_exchange_rates_for_date_sync, h, syncFallback]

/-- C4 counterexample: two failures of the stated contract on the sync
adapter the claim also cites.  First, on total fetch failure its base
entry carries rate 80.0 and nominal 80, not rate 1.0 and nominal 1.
Second, 'no exception propagates to the caller' fails outright: on a 200
response whose document holds the watch-listed zero-nominal element
`cxValuteZero`, the `parse_cbr_xml` call at parser.py line 110 sits
outside any `try`, so the uncaught ZeroDivisionError escapes to the
caller (modelled `.error ()`) and no map containing 'RUB' is returned at
all. -/
theorem c4_sync_fallback_counterexample :
    get_exchange_rates_for_date_sync "cbr" cxFloatFn cxIntFn ["USD"] []
        "01/01/2026" .transportError =
      .ok ([("RUB", ⟨80, 80, "cbr"⟩)],
           [("01/01/2026", [("RUB", ⟨80, 80, "cbr"⟩)])]) ∧
    (⟨80, 80, "cbr"⟩ : RateEntry) ≠ ⟨1, 1, "cbr"⟩ ∧
    get_exchange_rates_for_date_sync "cbr" cxFloatFn cxIntFn ["USD", "EUR"]
        [] "01/01/2026" (.response 200 (.doc [cxValuteZero, cxValuteGood])) =
      .error () := by
  refine ⟨rfl, by decide, rfl⟩

theorem binanceLoop_get (entry? : String → Option RateEntry) :
    ∀ (syms : List String) (acc : RateMap) (c : String),
      alGet? (binanceLoop entry? syms acc) c =
        (match entry? c with
         | some e => if c ∈ syms then some e else alGet? acc c
         | none => alGet? acc c) := by
  intro syms
  induction syms with
  | nil =>
    intro acc c
    cases entry? c <;> simp [binanceLoop]
  | cons s rest ih =>
    intro acc c
    cases hs : entry? s with
    | none =>
      simp only [binanceLoop, hs]
      rw [ih acc c]
      cases hc : entry? c with
      | none => rfl
      | some e =>
        have hcs : c ≠ s := by
          intro hh
          rw [hh, hs] at hc
          exact Option.noConfusion hc
        simp [List.mem_cons, hcs]
    | some es =>
      simp only [binanceLoop, hs]
      rw [ih (alSet acc s es) c]
      cases hc : entry? c with
      | none =>
        have hcs : c ≠ s := by
          intro hh
          rw [hh, hs] at hc
          exact Option.noConfusion hc
        rw [alGet?_alSet_ne acc s es c hcs]
      | some e =>
        by_cases hcs : c = s
        · subst hcs
          rw [hs] at hc
          have he : es = e := Option.some.inj hc
          by_cases hcr : c ∈ rest
          · simp [hcr, List.mem_cons]
          · simp [hcr, List.mem_cons, alGet?_alSet_self, he]
        · rw [alGet?_alSet_ne acc s es c hcs]
          simp [List.mem_cons, hcs]

/-- C5 (amended): both crypto adapters are pointwise determined by each
symbol's own lookup outcome — a symbol is present in the result exactly
when it is on the symbol list and its lookup succeeded, so a failed symbol
is absent and every other symbol's entry is unaffected; a successful
lookup with numeric price p yields rate = p * baseConversionRate with
nominal = 1 in the Poller's `fetch_binance`, but nominal = 80 in the sync
`get_crypto_rates_from_binance`; every failure shape yields no entry. -/
theorem c5_binance_pointwise (cryptoSource : String) (usdRub : ℚ)
    (symbols : List String) (net : String → BinanceOutcome) :
    (∀ c, alGet? (fetch_binance cryptoSource symbols usdRub net) c =
      (if c ∈ symbols then binanceEntry? cryptoSource usdRub (net c)
       else none)) ∧
    (∀ c, alGet? (get_crypto_rates_from_binance cryptoSource symbols usdRub
        net) c =
      (if c ∈ symbols then binanceSyncEntry? cryptoSource usdRub (net c)
       else none)) ∧
    (∀ p, binanceEntry? cryptoSource usdRub
        (.response 200 (.parsed (some (.numeric p)))) =
      some ⟨p * usdRub, 1, strOr cryptoSource "Binance"⟩) ∧
    (∀ p, binanceSyncEntry? cryptoSource usdRub
        (.response 200 (.parsed (some (.numeric p)))) =
      some ⟨p * usdRub, 80, strOr cryptoSource "binance"⟩) ∧
    binanceEntry? cryptoSource usdRub .transportError = none ∧
    (∀ status body, status ≠ 200 →
      binanceEntry? cryptoSource usdRub (.response status body) = none) ∧
    (∀ status,
      binanceEntry? cryptoSource usdRub (.response status .unparsable) =
        none) ∧
    (∀ status,
      binanceEntry? cryptoSource usdRub (.response status (.parsed none)) =
        none) ∧
    (∀ status, binanceEntry? cryptoSource usdRub
        (.response status (.parsed (some .nonNumeric))) = none) := by
  refine ⟨?_, ?_, ?_, ?_, rfl, ?_, ?_, ?_, ?_⟩
  · intro c
    simp only [fetch_binance]
    rw [binanceLoop_get]
    cases hc : binanceEntry? cryptoSource usdRub (net c) <;> simp [alGet?, hc]
  · intro c
    simp only [get_crypto_rates_from_binance]
    rw [binanceLoop_get]
    cases hc : binanceSyncEntry? cryptoSource usdRub (net c) <;>
      simp [alGet?, hc]
  · intro p
    simp [binanceEntry?]
  · intro p
    simp [binanceSyncEntry?]
  · intro status body h
    simp [binanceEntry?, h]
  · intro status
    simp [binanceEntry?]
  · intro status
    simp [binanceEntry?]
  · intro status
    simp [binanceEntry?]

/-- C5 counterexample: a successful lookup in the sync crypto adapter
yields an entry with nominal = 80, not the nominal = 1 the claim states
(here: symbol BTC, price 3, base conversion rate 2). -/
theorem c5_sync_nominal_counterexample :
    alGet? (get_crypto_rates_from_binance "x" ["BTC"] 2
        (fun _ => .response 200 (.parsed (some (.numeric 3))))) "BTC" =
      some ⟨6, 80, "x"⟩ ∧ (80 : Int) ≠ 1 := by
  constructor
  · have h6 : (3 : ℚ) * 2 = 6 := by norm_num
    simp [get_crypto_rates_from_binance, binanceLoop, binanceSyncEntry?,
      strOr, alSet, alGet?, h6]
  · decide

theorem parseValutes_ok_no_abort (floatFn : String → Option ℚ)
    (intFn : String → Option Int) (wanted : List String) :
    ∀ (vs : List Valute) (acc m : List (String × RateEntry)),
      parseValutes floatFn intFn wanted vs acc = .ok m →
      ∀ v ∈ vs, valuteStep floatFn intFn wanted v ≠ .abort := by
  intro vs
  induction vs with
  | nil => intro acc m _ v hv; simp at hv
  | cons u rest ih =>
    intro acc m h v hv
    cases hs : valuteStep floatFn intFn wanted u with
    | abort =>
      simp [parseValutes, hs] at h
    | skip =>
      rcases List.mem_cons.mp hv with h1 | h2
      · subst h1
        rw [hs]
        intro hx
        exact ElemResult.noConfusion hx
      · exact ih acc m (by simpa [parseValutes, hs] using h) v h2
    | entry c e =>
      rcases List.mem_cons.mp hv with h1 | h2
      · subst h1
        rw [hs]
        intro hx
        exact ElemResult.noConfusion hx
      · exact ih (alSet acc c e) m (by simpa [parseValutes, hs] using h) v h2

theorem parseValutes_no_abort_ok (floatFn : String → Option ℚ)
    (intFn : String → Option Int) (wanted : List String) :
    ∀ (vs : List Valute) (acc : List (String × RateEntry)),
      (∀ v ∈ vs, valuteStep floatFn intFn wanted v ≠ .abort) →
      parseValutes floatFn intFn wanted vs acc =
        .ok (alUpdate acc (valuteEntries floatFn intFn wanted vs)) := by
  intro vs
  induction vs with
  | nil => intro acc _; rfl
  | cons u rest ih =>
    intro acc h
    have hu := h u (List.mem_cons_self _ _)
    have hrest := fun v hv => h v (List.mem_cons_of_mem _ hv)
    cases hs : valuteStep floatFn intFn wanted u with
    | abort => exact absurd hs hu
    | skip =>
      simp only [parseValutes, hs]
      rw [ih acc hrest]
      simp [valuteEntries, List.filterMap_cons, hs]
    | entry c e =>
      simp only [parseValutes, hs]
      rw [ih (alSet acc c e) hrest]
      simp [valuteEntries, List.filterMap_cons, hs, alUpdate]

/-- C6 (amended): when `parse_cbr_xml` returns a dict (no watch-listed
element's nominal parsed to zero) and the qualifying codes are distinct,
every Valute element whose stripped character code is on the watch-list
and whose value text (the primary `Value` field, or `VunitRate` when the
primary is absent, comma replaced by dot) parses as a number is mapped to
rate = parsedValue / nominal, the nominal defaulting to 1 when the nominal
field is missing or malformed; every other element contributes nothing to
the dict, and a wholly malformed document yields the empty dict.  The
amendment the counterexample forces: a watch-listed element whose nominal
parses to 0 is not silently skipped — its uncaught ZeroDivisionError
aborts the whole parse. -/
theorem c6_parse_characterization (floatFn : String → Option ℚ)
    (intFn : String → Option Int) (wanted : List String) (vs : List Valute)
    (m : List (String × RateEntry))
    (hok : parse_cbr_xml floatFn intFn wanted (.doc vs) = .ok m)
    (hnd : ((valuteEntries floatFn intFn wanted vs).map Prod.fst).Nodup) :
    (∀ v ∈ vs, ∀ codeText raw x,
      v.charCode? = some codeText → pyStrip codeText ∈ wanted →
      valuteValueText? v = some raw →
      floatFn (pyReplaceCommaDot (pyStrip raw)) = some x →
      valuteNominal intFn v ≠ 0 →
      alGet? m (pyStrip codeText) =
        some ⟨x / (valuteNominal intFn v : ℚ), valuteNominal intFn v,
              "ЦБ РФ"⟩) ∧
    (∀ c, (∀ v ∈ vs, ∀ e, valuteStep floatFn intFn wanted v ≠ .entry c e) →
      alGet? m c = none) ∧
    (∀ v, v.nominal? = none → valuteNominal intFn v = 1) ∧
    (∀ v t, v.nominal? = some t → t ≠ "" → intFn (pyStrip t) = none →
      valuteNominal intFn v = 1) ∧
    parse_cbr_xml floatFn intFn wanted .malformed = .ok [] := by
  have hnab : ∀ v ∈ vs, valuteStep floatFn intFn wanted v ≠ .abort :=
    parseValutes_ok_no_abort floatFn intFn wanted vs [] m hok
  have hm : m = alUpdate [] (valuteEntries floatFn intFn wanted vs) := by
    have h2 := parseValutes_no_abort_ok floatFn intFn wanted vs [] hnab
    have h3 : parseValutes floatFn intFn wanted vs [] = .ok m := hok
    rw [h2] at h3
    exact (Except.ok.inj h3).symm
  refine ⟨?_, ?_, ?_, ?_, rfl⟩
  · intro v hv codeText raw x hcc hw hval hfl hnz
    have hstep : valuteStep floatFn intFn wanted v =
        .entry (pyStrip codeText)
          ⟨x / (valuteNominal intFn v : ℚ), valuteNominal intFn v,
           "ЦБ РФ"⟩ := by
      simp only [valuteStep, hcc, hval, hfl]
      rw [if_pos (List.elem_iff.mpr hw), if_neg hnz]
    have hmem : (pyStrip codeText,
        (⟨x / (valuteNominal intFn v : ℚ), valuteNominal intFn v,
          "ЦБ РФ"⟩ : RateEntry)) ∈
        valuteEntries floatFn intFn wanted vs := by
      apply List.mem_filterMap.mpr
      exact ⟨v, hv, by rw [hstep]⟩
    have hget := alGet?_of_mem_nodup _ _ _ hnd hmem
    rw [hm, alGet?_alUpdate_nodup _ _ _ hnd, hget]
  · intro c hno
    have hent : alGet? (valuteEntries floatFn intFn wanted vs) c = none := by
      cases hg : alGet? (valuteEntries floatFn intFn wanted vs) c with
      | none => rfl
      | some e =>
        exfalso
        have hmem := mem_of_alGet? _ _ _ hg
        obtain ⟨v, hv, hfv⟩ := List.mem_filterMap.mp hmem
        cases hs : valuteStep floatFn intFn wanted v with
        | skip =>
          rw [hs] at hfv
          exact Option.noConfusion hfv
        | abort =>
          rw [hs] at hfv
          exact Option.noConfusion hfv
        | entry c' e' =>
          rw [hs] at hfv
          have hpair : (c', e') = (c, e) := Option.some.inj hfv
          have hc : c' = c := by
            have := congrArg Prod.fst hpair
            simpa using this
          have he : e' = e := by
            have := congrArg Prod.snd hpair
            simpa using this
          exact hno v hv e (by rw [hs, hc, he])
    rw [hm, alGet?_alUpdate_nodup _ _ _ hnd, hent]
    rfl
  · intro v hvn
    simp [valuteNominal, hvn]
  · intro v t hvt hne hint
    simp [valuteNominal, hvt, hne, hint]

theorem c6_parse_characterization_witness :
    parse_cbr_xml cxFloatFn cxIntFn ["EUR"] (.doc [cxValuteGood]) =
      .ok cxParsedMap ∧
    ((valuteEntries cxFloatFn cxIntFn ["EUR"] [cxValuteGood]).map
      Prod.fst).Nodup ∧
    ((∀ v ∈ [cxValuteGood], ∀ codeText raw x,
      v.charCode? = some codeText → pyStrip codeText ∈ ["EUR"] →
      valuteValueText? v = some raw →
      cxFloatFn (pyReplaceCommaDot (pyStrip raw)) = some x →
      valuteNominal cxIntFn v ≠ 0 →
      alGet? cxParsedMap (pyStrip codeText) =
        some ⟨x / (valuteNominal cxIntFn v : ℚ), valuteNominal cxIntFn v,
              "ЦБ РФ"⟩) ∧
    (∀ c, (∀ v ∈ [cxValuteGood], ∀ e,
        valuteStep cxFloatFn cxIntFn ["EUR"] v ≠ .entry c e) →
      alGet? cxParsedMap c = none) ∧
    (∀ v, v.nominal? = none → valuteNominal cxIntFn v = 1) ∧
    (∀ v t, v.nominal? = some t → t ≠ "" → cxIntFn (pyStrip t) = none →
      valuteNominal cxIntFn v = 1) ∧
    parse_cbr_xml cxFloatFn cxIntFn ["EUR"] .malformed = .ok []) :=
  ⟨rfl, by decide,
   c6_parse_characterization cxFloatFn cxIntFn ["EUR"] [cxValuteGood]
     cxParsedMap rfl (by decide)⟩

/-- C6 counterexample: a watch-listed element whose nominal text parses to
0 (`cxValuteZero`) is not merely skipped: the division raises an uncaught
ZeroDivisionError and the whole parse aborts, losing the well-formed
second element `cxValuteGood`, which on its own qualifies. -/
theorem c6_zero_nominal_aborts :
    parse_cbr_xml cxFloatFn cxIntFn ["USD", "EUR"]
        (.doc [cxValuteZero, cxValuteGood]) = .error () ∧
    valuteStep cxFloatFn cxIntFn ["USD", "EUR"] cxValuteGood =
      .entry "EUR" ⟨2 / ((1 : Int) : ℚ), 1, "ЦБ РФ"⟩ :=
  ⟨rfl, rfl⟩

/-- C9 (amended): an inbound bus message lacking the item object or the
code is ignored with storage unchanged and nothing re-broadcast; a message
whose item carries code, rate, nominal, source and is_crypto is upserted —
created with title = code and the four fields from the message when no
record exists, or the four mutable fields overwritten when one does — and
the raw message is re-broadcast unchanged.  The amendment the
counterexample forces: a message whose item carries a code but lacks one
of the four fields performs no storage change (the KeyError is swallowed
by the `finally: break`) yet is still re-broadcast. -/
theorem c9_bus_upsert (now : Nat) (store : Store) (m : BusMsg) (it : BusItem)
    (code : String) (r : ℚ) (n : Int) (s : String) (c : Bool)
    (hit : m.item? = some it) (hcode : it.code? = some code) (hne : code ≠ "")
    (hr : it.rate? = some r) (hn : it.nominal? = some n)
    (hs : it.source? = some s) (hc : it.is_crypto? = some c) :
    (on_message now store (.decoded m)).rebroadcasts = [m] ∧
    (lookupCode store code = none →
      lookupCode (on_message now store (.decoded m)).store code =
        some ⟨freshId store, code, code, r, n, s, c, now⟩) ∧
    (∀ old, lookupCode store code = some old →
      lookupCode (on_message now store (.decoded m)).store code =
        some { old with
               rate := r, nominal := n, source := s, is_crypto := c }) ∧
    (∀ m' : BusMsg, m'.item? = none →
      on_message now store (.decoded m') = ⟨store, []⟩) ∧
    (∀ (m' : BusMsg) (it' : BusItem), m'.item? = some it' →
      it'.code? = none → on_message now store (.decoded m') = ⟨store, []⟩) := by
  refine ⟨?_, ?_, ?_, ?_, ?_⟩
  · simp [on_message, hit, hcode, hne]
  · intro hl
    simp only [on_message, hit, hcode, if_neg hne, upsertFromBus,
      hr, hn, hs, hc, hl]
    exact lookupCode_append_self store _ hl
  · intro old hl
    simp only [on_message, hit, hcode, if_neg hne, upsertFromBus,
      hr, hn, hs, hc, hl]
    refine lookupCode_map_if store code _ ?_ old hl
    exact (lookupCode_code_eq hl : old.code = code)
  · intro m' hm'
    simp [on_message, hm']
  · intro m' it' hm' hc'
    simp [on_message, hm', hc']

theorem c9_bus_upsert_witness :
    cxFullMsg.item? = some cxFullItem ∧
    cxFullItem.code? = some "USD" ∧
    "USD" ≠ "" ∧
    cxFullItem.rate? = some (181 / 2) ∧
    cxFullItem.nominal? = some 1 ∧
    cxFullItem.source? = some "x" ∧
    cxFullItem.is_crypto? = some false ∧
    ((on_message 7 [] (.decoded cxFullMsg)).rebroadcasts = [cxFullMsg] ∧
    (lookupCode [] "USD" = none →
      lookupCode (on_message 7 [] (.decoded cxFullMsg)).store "USD" =
        some ⟨freshId [], "USD", "USD", 181 / 2, 1, "x", false, 7⟩) ∧
    (∀ old, lookupCode [] "USD" = some old →
      lookupCode (on_message 7 [] (.decoded cxFullMsg)).store "USD" =
        some { old with
               rate := 181 / 2, nominal := 1, source := "x",
               is_crypto := false }) ∧
    (∀ m' : BusMsg, m'.item? = none →
      on_message 7 [] (.decoded m') = ⟨[], []⟩) ∧
    (∀ (m' : BusMsg) (it' : BusItem), m'.item? = some it' →
      it'.code? = none → on_message 7 [] (.decoded m') = ⟨[], []⟩)) :=
  ⟨rfl, rfl, by decide, rfl, rfl, rfl, rfl,
   c9_bus_upsert 7 [] cxFullMsg cxFullItem "USD" (181 / 2) 1 "x" false
     rfl rfl (by decide) rfl rfl rfl rfl⟩

/-- C9 counterexample: the message `{"item": {"code": "USD"}}` carries an
item object and a code, so the claim requires an upsert that creates a
"USD" record; the code instead raises KeyError on `item_data["rate"]`,
the `finally: break` swallows it, storage is left unchanged — and the raw
message is still re-broadcast. -/
theorem c9_missing_rate_counterexample :
    (on_message 0 [] (.decoded cxBusMsg)).store = [] ∧
    lookupCode (on_message 0 [] (.decoded cxBusMsg)).store "USD" = none ∧
    (on_message 0 [] (.decoded cxBusMsg)).rebroadcasts = [cxBusMsg] :=
  ⟨rfl, rfl, rfl⟩

/-- C10: the loop-back update path writes only rate, nominal, source and
is_crypto — id, code, title and updated_at are untouched, so updated_at is
not refreshed — while the pipeline's own update path on a true delta
writes updated_at = now. -/
theorem c10_busupdate_frame (now now2 : Nat) (store store2 : Store)
    (m : BusMsg) (it : BusItem) (code code2 : String) (r : ℚ) (n : Int)
    (s : String) (c : Bool) (old item : ItemRecord) (e : RateEntry)
    (κ : List String)
    (hit : m.item? = some it) (hcode : it.code? = some code)
    (hne : code ≠ "") (hr : it.rate? = some r) (hn : it.nominal? = some n)
    (hs : it.source? = some s) (hc : it.is_crypto? = some c)
    (hold : lookupCode store code = some old)
    (hitem : lookupCode store2 code2 = some item)
    (hd : eps < |item.rate - e.rate|) :
    lookupCode (on_message now store (.decoded m)).store code =
      some { old with
             rate := r, nominal := n, source := s, is_crypto := c } ∧
    lookupCode (stepCode κ now2 store2 code2 e.toInfo).store code2 =
      some { item with
             rate := e.rate, nominal := e.nominal, source := e.source,
             is_crypto := κ.contains code2, updated_at := now2 } := by
  constructor
  · simp only [on_message, hit, hcode, if_neg hne, upsertFromBus,
      hr, hn, hs, hc, hold]
    refine lookupCode_map_if store code _ ?_ old hold
    exact (lookupCode_code_eq hold : old.code = code)
  · simp only [stepCode, RateEntry.toInfo, hitem, if_pos hd]
    refine lookupCode_map_if store2 code2 _ ?_ item hitem
    exact (lookupCode_code_eq hitem : item.code = code2)

theorem c10_busupdate_frame_witness :
    cxFullMsg.item? = some cxFullItem ∧
    cxFullItem.code? = some "USD" ∧
    "USD" ≠ "" ∧
    lookupCode [cxItem] "USD" = some cxItem ∧
    eps < |cxItem.rate - cxEntry.rate| ∧
    (lookupCode (on_message 9 [cxItem] (.decoded cxFullMsg)).store "USD" =
      some { cxItem with
             rate := 181 / 2, nominal := 1, source := "x",
             is_crypto := false } ∧
    lookupCode (stepCode [] 9 [cxItem] "USD" cxEntry.toInfo).store "USD" =
      some { cxItem with
             rate := cxEntry.rate, nominal := cxEntry.nominal,
             source := cxEntry.source, is_crypto := List.contains [] "USD",
             updated_at := 9 }) :=
  have hd : eps < |cxItem.rate - cxEntry.rate| := by
    have h1 : cxItem.rate - cxEntry.rate = -1 := by norm_num [cxItem, cxEntry]
    rw [h1, abs_neg, abs_one]
    norm_num [eps]
  ⟨rfl, rfl, by decide, by decide, hd,
   c10_busupdate_frame 9 9 [cxItem] [cxItem] cxFullMsg cxFullItem "USD" "USD"
     (181 / 2) 1 "x" false cxItem cxItem cxEntry []
     rfl rfl (by decide) rfl rfl rfl rfl (by decide) (by decide) hd⟩
